import Mathlib

/-!
Verification of the attendance reconciliation engine (execute.py).

Datetimes are modelled as rational numbers of seconds since the epoch
1970-01-01 00:00:00 (day 0, a Thursday).  Python float arithmetic on
hours is modelled exactly over the rationals; the constants involved
(8.75, 9.0, divisions by 60 and 3600) are the ones of the source.
A time period is a pair (start, end) of datetimes.
-/

namespace Attendance

/-- A time period: (start, end) in seconds since epoch, as in the tuples
of datetimes manipulated by execute.py. -/
abbrev Period := ℚ × ℚ

/-- Translation of merge_two_datetime_periods: merge two periods if they
overlap or touch, returning none otherwise. -/
def merge_two_datetime_periods (p1 p2 : Period) : Option Period :=
  if p1.2 < p2.1 ∨ p2.2 < p1.1 then none
  else some (min p1.1 p2.1, max p1.2 p2.2)

/-- Translation of the while loop inside merge_datetime_periods: walk the
sorted list, folding each element into its successor while they merge,
advancing one position when they do not. -/
def mergeLoop : List Period → List Period
  | [] => []
  | [p] => [p]
  | p :: q :: rest =>
    match merge_two_datetime_periods p q with
    | some r => mergeLoop (r :: rest)
    | none => p :: mergeLoop (q :: rest)
termination_by l => l.length
decreasing_by
  all_goals simp [List.length_cons]

/-- Translation of merge_datetime_periods: stable sort by start time
(Python's sorted with key start is a stable sort, modelled by insertion
sort, which is stable), then run the merging sweep. -/
def merge_datetime_periods (periods : List Period) : List Period :=
  mergeLoop (List.insertionSort (fun a b : Period => a.1 ≤ b.1) periods)

/-- Structural (fuel-indexed) reformulation of mergeLoop, used to
evaluate it on closed inputs; with fuel at least the list length it
computes the same list (see mergeLoop_eq_fuel). -/
def mergeLoopFuel : ℕ → List Period → List Period
  | _, [] => []
  | _, [p] => [p]
  | 0, l => l
  | n + 1, p :: q :: rest =>
    match merge_two_datetime_periods p q with
    | some r => mergeLoopFuel n (r :: rest)
    | none => p :: mergeLoopFuel n (q :: rest)

/-- Python's int() conversion: truncation toward zero. -/
def pyInt (q : ℚ) : ℤ :=
  if 0 ≤ q then ⌊q⌋ else ⌈q⌉

/-- Translation of calculate_datetime_minutes: sum over the periods of
int(delta.total_seconds() / 60). -/
def calculate_datetime_minutes (periods : List Period) : ℤ :=
  (periods.map (fun p => pyInt ((p.2 - p.1) / 60))).sum

/-- Every period of the list is valid: start at or before end. -/
def ValidL (l : List Period) : Prop := ∀ p ∈ l, p.1 ≤ p.2

/-- The list is ordered by nondecreasing start time. -/
def SortedStart (l : List Period) : Prop := l.Pairwise (fun a b => a.1 ≤ b.1)

/-- Consecutive periods are strictly separated: each ends strictly before
the next begins (so touching periods have been folded together). -/
def Separated (l : List Period) : Prop := l.Chain' (fun a b => a.2 < b.1)

instance : DecidablePred ValidL := fun l => by
  unfold ValidL; infer_instance

instance : DecidablePred SortedStart := fun l => by
  unfold SortedStart; infer_instance

instance : DecidablePred Separated := fun l => by
  unfold Separated; infer_instance

/-- The set of instants covered by a list of periods, each read as a
closed interval of the rational time line. -/
def cover (l : List Period) : Set ℚ := {x | ∃ p ∈ l, p.1 ≤ x ∧ x ≤ p.2}

/-- Exact total duration in seconds of a list of periods, without the
per-period truncation to whole minutes. -/
def sumDurationSeconds (l : List Period) : ℚ := (l.map (fun p => p.2 - p.1)).sum

/-- No two periods of the list merge, in the sense of
merge_two_datetime_periods (neither overlapping nor touching). -/
def NoOverlaps (l : List Period) : Prop :=
  l.Pairwise (fun p q => merge_two_datetime_periods p q = none)

/-! ## Time-expression parsing (parse_datetime_str) -/

/-- The time portion of an absence start/end expression: a morning
marker, an afternoon marker, or an explicit hour/minute pair. -/
inductive TimeToken
  | morning
  | afternoon
  | explicitTime (h mi : ℤ)
deriving DecidableEq

/-- Structured form of the date-time strings accepted by
parse_datetime_str: a year-month-day date part and an optional time
token. -/
structure TimeExprRep where
  y : ℤ
  m : ℤ
  d : ℤ
  tok : Option TimeToken
deriving DecidableEq

/-- Gregorian leap-year rule, as implemented by Python's datetime. -/
def isLeapYear (y : ℤ) : Bool := (y % 4 = 0 ∧ y % 100 ≠ 0) ∨ y % 400 = 0

/-- Number of days in a month of a given year. -/
def daysInMonth (y m : ℤ) : ℤ :=
  if m = 2 then (if isLeapYear y then 29 else 28)
  else if m = 4 ∨ m = 6 ∨ m = 9 ∨ m = 11 then 30
  else 31

/-- Validity of a calendar date as checked by strptime with format
%Y-%m-%d (datetime years range over 1..9999). -/
def validDate (y m d : ℤ) : Bool :=
  1 ≤ y ∧ y ≤ 9999 ∧ 1 ≤ m ∧ m ≤ 12 ∧ 1 ≤ d ∧ d ≤ daysInMonth y m

/-- Validity of an explicit time as checked by strptime with format
%H:%M. -/
def validHM (h mi : ℤ) : Bool := 0 ≤ h ∧ h ≤ 23 ∧ 0 ≤ mi ∧ mi ≤ 59

/-- A parsed Python datetime (seconds are always zero in this program). -/
structure PyDateTime where
  year : ℤ
  month : ℤ
  day : ℤ
  hour : ℤ
  minute : ℤ
deriving DecidableEq

/-- Translation of parse_datetime_str.  An invalid date fails every
branch; a bare date defaults to 09:00 (18:00 as an end); a morning
marker gives 09:00 (12:00 as an end); an afternoon marker gives 13:00
(18:00 as an end); an explicit valid HH:MM is used as given, and an
invalid explicit time fails.  Raising ValueError is modelled by none. -/
def parse_datetime_str (e : TimeExprRep) (is_end_time : Bool) : Option PyDateTime :=
  if validDate e.y e.m e.d then
    match e.tok with
    | none => some ⟨e.y, e.m, e.d, if is_end_time then 18 else 9, 0⟩
    | some .morning => some ⟨e.y, e.m, e.d, if is_end_time then 12 else 9, 0⟩
    | some .afternoon => some ⟨e.y, e.m, e.d, if is_end_time then 18 else 13, 0⟩
    | some (.explicitTime h mi) =>
        if validHM h mi then some ⟨e.y, e.m, e.d, h, mi⟩ else none
  else none

/-- Days since 1970-01-01 of a Gregorian calendar date (Hinnant's
days-from-civil algorithm); all inner divisions act on nonnegative
numbers. -/
def daysFromCivil (y m d : ℤ) : ℤ :=
  let y2 := if m ≤ 2 then y - 1 else y
  let era := Int.fdiv y2 400
  let yoe := y2 - era * 400
  let mp := (m + 9) % 12
  let doy := (153 * mp + 2) / 5 + d - 1
  let doe := yoe * 365 + yoe / 4 - yoe / 100 + doy
  era * 146097 + doe - 719468

/-- Seconds since epoch of a parsed datetime. -/
def toSecs (t : PyDateTime) : ℚ :=
  ((daysFromCivil t.year t.month t.day) * 86400 + t.hour * 3600 + t.minute * 60 : ℤ)

/-- Calendar day of an instant, modelling the .date() accessor. -/
def eday (t : ℚ) : ℤ := ⌊t / 86400⌋

/-! ## Absence resolution (process_absence_record, get_raw_absence_hours,
get_actual_absence_hours) -/

/-- Start of the workday window (09:00) on a given day. -/
def workday_start (day : ℤ) : ℚ := (day * 86400 + 9 * 3600 : ℤ)

/-- End of the workday window (18:00) on a given day. -/
def workday_end (day : ℤ) : ℚ := (day * 86400 + 18 * 3600 : ℤ)

/-- Translation of process_absence_record: parse both expressions (a
parse failure is caught and yields none), reject records whose dates do
not overlap the target day, clip to the workday window, and discard
empty or inverted clips. -/
def process_absence_record (startExpr endExpr : TimeExprRep) (targetDay : ℤ) :
    Option Period :=
  match parse_datetime_str startExpr false, parse_datetime_str endExpr true with
  | some st, some en =>
      let s := toSecs st
      let e := toSecs en
      if eday e < targetDay ∨ targetDay < eday s then none
      else
        let is_ := max s (workday_start targetDay)
        let ie := min e (workday_end targetDay)
        if ie ≤ is_ then none
        else some (is_, ie)
  | _, _ => none

/-- One row of an absence table (休假单 / 外出单 / 出差单): employee
name, record status, category label, and start/end expressions. -/
structure AbsenceRow where
  name : String
  status : String
  typ : String
  startExpr : TimeExprRep
  endExpr : TimeExprRep
deriving DecidableEq

/-- The record statuses that count: 已生效 (effective) and 未生效
(pending effective). -/
def effective_statuses : List String := ["已生效", "未生效"]

/-- Rows of one absence table that belong to the given employee and have
a counted status. -/
def absence_records_for (df : List AbsenceRow) (name : String) : List AbsenceRow :=
  df.filter (fun r => r.name = name ∧ r.status ∈ effective_statuses)

/-- Translation of get_raw_absence_hours: collect the clipped periods of
all tables, and if any survive, merge them and return
(min(total minutes / 60, 9.0), merged periods). -/
def get_raw_absence_hours (name : String) (targetDay : ℤ)
    (absence_dfs : List (List AbsenceRow)) : ℚ × List Period :=
  let all_time_periods :=
    absence_dfs.flatMap (fun df =>
      (absence_records_for df name).filterMap
        (fun r => process_absence_record r.startExpr r.endExpr targetDay))
  if all_time_periods.isEmpty then (0, [])
  else
    let merged := merge_datetime_periods all_time_periods
    (min ((calculate_datetime_minutes merged : ℚ) / 60) 9, merged)

/-- Start of the synthetic lunch interval (12:00) on a given day. -/
def lunch_start (refDay : ℤ) : ℚ := (refDay * 86400 + 12 * 3600 : ℤ)

/-- End of the synthetic lunch interval (13:00) on a given day. -/
def lunch_end (refDay : ℤ) : ℚ := (refDay * 86400 + 13 * 3600 : ℤ)

/-- Translation of get_actual_absence_hours: append the lunch interval
of the first period's day, re-merge, drop any resulting period exactly
equal to the lunch interval, and return min(total minutes / 60, 9.0);
an empty input returns 0 immediately. -/
def get_actual_absence_hours (merged_periods : List Period) : ℚ :=
  match merged_periods with
  | [] => 0
  | p :: _ =>
    let refDay := eday p.1
    let ls := lunch_start refDay
    let le' := lunch_end refDay
    let all_periods := merged_periods ++ [(ls, le')]
    let remerged := merge_datetime_periods all_periods
    let kept := remerged.filter (fun q => ¬(q.1 = ls ∧ q.2 = le'))
    min ((calculate_datetime_minutes kept : ℚ) / 60) 9

/-- Translation of get_absence_hours, restricted to the numeric outputs
(the description string feeds no computation): raw hours from the three
tables and actual hours after the lunch adjustment. -/
def get_absence_hours (name : String) (targetDay : ℤ)
    (xiujia waichu chuchai : List AbsenceRow) : ℚ × ℚ :=
  let rm := get_raw_absence_hours name targetDay [xiujia, waichu, chuchai]
  (rm.1, get_actual_absence_hours rm.2)

/-! ## Calendar policy (is_workday_from_calendar) -/

/-- Python's date.weekday(): Monday is 0, Sunday is 6.  Day 0 of the
epoch (1970-01-01) is a Thursday, weekday 3. -/
def pyWeekday (day : ℤ) : ℤ := (day + 3) % 7

/-- Translation of is_workday_from_calendar: a legal holiday is never a
workday, an override (compensated or ordinary workday entry) always is,
and otherwise Monday through Friday are workdays. -/
def is_workday_from_calendar (day : ℤ) (work_days holiday_days : List ℤ) : Bool :=
  if day ∈ holiday_days then false
  else if day ∈ work_days then true
  else pyWeekday day < 5

/-! ## Classification and the reconciliation engine (analyze_attendance) -/

/-- The four attendance statuses: 正常, 未打卡, 上/下班漏打卡, 出勤不足. -/
inductive AttStatus
  | normal
  | noPunch
  | singlePunchMissing
  | insufficient
deriving DecidableEq

/-- Required attendance hours for a day: max(0, 8.75 − actual absence
hours). -/
def required_hours (actual_absence : ℚ) : ℚ := max 0 (8.75 - actual_absence)

/-- Translation of the status decision chain of analyze_attendance. -/
def decide_status (record_count : ℕ) (work_hours required : ℚ) : AttStatus :=
  if record_count = 0 ∧ 0 < required then .noPunch
  else if record_count = 1 ∧ work_hours < required then .singlePunchMissing
  else if work_hours < required then .insufficient
  else .normal

/-- One badge-swipe event: card holder name and event instant. -/
structure KaoqinEvent where
  name : String
  time : ℚ
deriving DecidableEq

/-- One row of the engine's statistics output, restricted to the fields
that feed computations or claims (the formatted strings are display
only). -/
structure AttendanceRecord where
  day : ℤ
  name : String
  record_count : ℕ
  work_hours : ℚ
  raw_absence_hours : ℚ
  actual_absence_hours : ℚ
  required : ℚ
  status : AttStatus
  temp_card : Bool
deriving DecidableEq

/-- Deduplication keeping first occurrences, as Python dict keys and
pandas unique() do. -/
def pyDedup {α : Type _} [DecidableEq α] (l : List α) : List α :=
  l.foldl (fun acc a => if a ∈ acc then acc else acc ++ [a]) []

/-- Badge events restricted to the closed date range, as the mask at the
top of analyze_attendance does. -/
def events_in_range (kaoqin : List KaoqinEvent) (start_date end_date : ℤ) :
    List KaoqinEvent :=
  kaoqin.filter (fun e => start_date ≤ eday e.time ∧ eday e.time ≤ end_date)

/-- Translation of the date loop bound of analyze_attendance: the sorted
distinct dates of the in-range badge events, kept only when the calendar
classifies them as workdays. -/
def engine_work_dates (kaoqin : List KaoqinEvent) (start_date end_date : ℤ)
    (work_days holiday_days : List ℤ) : List ℤ :=
  let filtered := events_in_range kaoqin start_date end_date
  let all_dates := List.insertionSort (fun a b : ℤ => a ≤ b)
    (pyDedup (filtered.map (fun e => eday e.time)))
  all_dates.filter (fun d => is_workday_from_calendar d work_days holiday_days)

/-- The per-cell body of the loops of analyze_attendance: gather the
employee's events of the day, compute worked hours from the first and
last event, resolve absences, classify, and check the temporary-card
table. -/
def build_record (filtered : List KaoqinEvent)
    (xiujia waichu chuchai : List AbsenceRow) (linshika : List (String × ℤ))
    (day : ℤ) (name : String) : AttendanceRecord :=
  let day_events := filtered.filter (fun e => eday e.time = day ∧ e.name = name)
  let times := List.insertionSort (fun a b : ℚ => a ≤ b) (day_events.map (fun e => e.time))
  let record_count := day_events.length
  let work_hours :=
    match times.head?, times.getLast? with
    | some first_in, some last_out => (last_out - first_in) / 3600
    | _, _ => 0
  let ra := get_absence_hours name day xiujia waichu chuchai
  let req := required_hours ra.2
  let status := decide_status record_count work_hours req
  let temp := linshika.any (fun t => t.1 = name ∧ t.2 = day)
  ⟨day, name, record_count, work_hours, ra.1, ra.2, req, status, temp⟩

/-- Translation of analyze_attendance's record production: one record
per (workday with events, qualified employee) pair, in loop order. -/
def analyze_attendance (kaoqin : List KaoqinEvent)
    (xiujia waichu chuchai : List AbsenceRow) (roster : List String)
    (linshika : List (String × ℤ)) (start_date end_date : ℤ)
    (work_days holiday_days : List ℤ) : List AttendanceRecord :=
  let filtered := events_in_range kaoqin start_date end_date
  let qualified := pyDedup roster
  (engine_work_dates kaoqin start_date end_date work_days holiday_days).flatMap
    (fun day => qualified.map (fun name =>
      build_record filtered xiujia waichu chuchai linshika day name))

/-- The statuses counted into the exception summary. -/
def exception_statuses : List AttStatus := [.noPunch, .singlePunchMissing, .insufficient]

/-- Count of an employee's records with a given status; this is the
value the incremental summary_data dictionaries of analyze_attendance
hold after the loops finish. -/
def summary_count (records : List AttendanceRecord) (s : AttStatus) (n : String) : ℕ :=
  (records.filter (fun r => r.status = s ∧ r.name = n)).length

/-- Translation of the row-name derivation of save_reports: the union of
the key sets of the three summary dictionaries, sorted; a name is a key
of a dictionary exactly when some record has that name and status. -/
def summary_row_names (records : List AttendanceRecord) : List String :=
  List.insertionSort (fun a b : String => a ≤ b)
    (pyDedup ((records.filter (fun r => r.status ∈ exception_statuses)).map
      (fun r => r.name)))

/-! ## Lemmas about the interval merger -/

theorem merge_two_eq_none_iff {p q : Period} :
    merge_two_datetime_periods p q = none ↔ (p.2 < q.1 ∨ q.2 < p.1) := by
  unfold merge_two_datetime_periods
  split <;> simp_all

theorem merge_two_eq_some_iff {p q r : Period} :
    merge_two_datetime_periods p q = some r ↔
      ((q.1 ≤ p.2 ∧ p.1 ≤ q.2) ∧ r = (min p.1 q.1, max p.2 q.2)) := by
  unfold merge_two_datetime_periods
  split <;> rename_i h
  · constructor
    · intro hc
      exact Option.noConfusion hc
    · rintro ⟨⟨h1, h2⟩, _⟩
      rcases h with h | h <;> linarith
  · push_neg at h
    constructor
    · intro hs
      exact ⟨⟨h.1, h.2⟩, (Option.some.inj hs).symm⟩
    · rintro ⟨_, rfl⟩
      rfl

theorem merge_two_none_symm {p q : Period} :
    merge_two_datetime_periods p q = none → merge_two_datetime_periods q p = none := by
  simp only [merge_two_eq_none_iff]
  exact Or.symm

theorem mergeLoop_valid : ∀ l, ValidL l → ValidL (mergeLoop l) := by
  intro l
  induction l using mergeLoop.induct with
  | case1 => intro h; simpa [mergeLoop] using h
  | case2 p => intro h; simpa [mergeLoop] using h
  | case3 p q rest r hm ih =>
    intro hv
    rw [mergeLoop, hm]
    apply ih
    rcases merge_two_eq_some_iff.mp hm with ⟨_, hr⟩
    intro x hx
    rcases List.mem_cons.mp hx with hx | hx
    · subst hr hx
      have hp := hv p (by simp)
      exact le_trans (min_le_left _ _) (le_trans hp (le_max_left _ _))
    · exact hv x (by simp [hx])
  | case4 p q rest hm ih =>
    intro hv
    rw [mergeLoop, hm]
    intro x hx
    rcases List.mem_cons.mp hx with hx | hx
    · exact hx ▸ hv p (by simp)
    · exact ih (fun y hy => hv y (by simp [List.mem_cons.mp hy])) x hx

theorem mergeLoop_head_start : ∀ l, SortedStart l → ∀ p rest, l = p :: rest →
    ∃ e t, mergeLoop l = (p.1, e) :: t := by
  intro l
  induction l using mergeLoop.induct with
  | case1 =>
    intro _ p rest h
    exact absurd h (by simp)
  | case2 p0 =>
    intro _ p rest h
    injection h with h1 h2
    subst h1
    exact ⟨p0.2, [], by rw [mergeLoop]⟩
  | case3 p0 q rest r hm ih =>
    intro hs p t h
    injection h with h1 h2
    subst h1 h2
    rcases merge_two_eq_some_iff.mp hm with ⟨_, hr⟩
    rcases List.pairwise_cons.mp hs with ⟨hp0, hs'⟩
    have hpq : p0.1 ≤ q.1 := hp0 q (by simp)
    have hr1 : r.1 = p0.1 := by rw [hr]; exact min_eq_left hpq
    have hsr : SortedStart (r :: rest) := by
      refine List.pairwise_cons.mpr ⟨?_, (List.pairwise_cons.mp hs').2⟩
      intro x hx
      rw [hr1]
      exact hp0 x (by simp [hx])
    rcases ih hsr r rest rfl with ⟨e, t', ht⟩
    refine ⟨e, t', ?_⟩
    rw [mergeLoop, hm]
    show mergeLoop (r :: rest) = (p0.1, e) :: t'
    rw [ht, hr1]
  | case4 p0 q rest hm ih =>
    intro hs p t h
    injection h with h1 h2
    subst h1
    exact ⟨p0.2, mergeLoop (q :: rest), by rw [mergeLoop, hm]⟩

theorem mergeLoop_lower (c : ℚ) : ∀ l, (∀ x ∈ l, c ≤ x.1) → ∀ x ∈ mergeLoop l, c ≤ x.1 := by
  intro l
  induction l using mergeLoop.induct with
  | case1 => intro h; rw [mergeLoop]; exact h
  | case2 p => intro h; rw [mergeLoop]; exact h
  | case3 p q rest r hm ih =>
    intro h
    rw [mergeLoop, hm]
    apply ih
    intro x hx
    rcases List.mem_cons.mp hx with hx | hx
    · subst hx
      rcases merge_two_eq_some_iff.mp hm with ⟨_, hr⟩
      rw [hr]
      exact le_min (h p (by simp)) (h q (by simp))
    · exact h x (by simp [hx])
  | case4 p q rest hm ih =>
    intro h
    rw [mergeLoop, hm]
    intro x hx
    rcases List.mem_cons.mp hx with hx | hx
    · exact hx ▸ h p (by simp)
    · exact ih (fun y hy => h y (by simp [List.mem_cons.mp hy])) x hx

theorem mergeLoop_sorted : ∀ l, SortedStart l → SortedStart (mergeLoop l) := by
  intro l
  induction l using mergeLoop.induct with
  | case1 => intro h; rw [mergeLoop]; exact h
  | case2 p => intro h; rw [mergeLoop]; exact h
  | case3 p q rest r hm ih =>
    intro hs
    rw [mergeLoop, hm]
    rcases merge_two_eq_some_iff.mp hm with ⟨_, hr⟩
    rcases List.pairwise_cons.mp hs with ⟨hp, hs'⟩
    have hpq : p.1 ≤ q.1 := hp q (by simp)
    have hr1 : r.1 = p.1 := by rw [hr]; exact min_eq_left hpq
    apply ih
    refine List.pairwise_cons.mpr ⟨?_, (List.pairwise_cons.mp hs').2⟩
    intro x hx
    rw [hr1]
    exact hp x (by simp [hx])
  | case4 p q rest hm ih =>
    intro hs
    rw [mergeLoop, hm]
    rcases List.pairwise_cons.mp hs with ⟨hp, hs'⟩
    exact List.pairwise_cons.mpr ⟨mergeLoop_lower p.1 (q :: rest) hp, ih hs'⟩

theorem mergeLoop_separated : ∀ l, ValidL l → SortedStart l → Separated (mergeLoop l) := by
  intro l
  induction l using mergeLoop.induct with
  | case1 => intro _ _; rw [mergeLoop]; exact List.chain'_nil
  | case2 p => intro _ _; rw [mergeLoop]; simp [Separated]
  | case3 p q rest r hm ih =>
    intro hv hs
    rw [mergeLoop, hm]
    rcases merge_two_eq_some_iff.mp hm with ⟨_, hr⟩
    rcases List.pairwise_cons.mp hs with ⟨hp, hs'⟩
    have hpq : p.1 ≤ q.1 := hp q (by simp)
    apply ih
    · intro x hx
      rcases List.mem_cons.mp hx with hx | hx
      · subst hx
        rw [hr]
        exact le_trans (min_le_left _ _) (le_trans (hv p (by simp)) (le_max_left _ _))
      · exact hv x (by simp [hx])
    · refine List.pairwise_cons.mpr ⟨?_, (List.pairwise_cons.mp hs').2⟩
      intro x hx
      have hr1 : r.1 = p.1 := by rw [hr]; exact min_eq_left hpq
      rw [hr1]
      exact hp x (by simp [hx])
  | case4 p q rest hm ih =>
    intro hv hs
    rw [mergeLoop, hm]
    rcases List.pairwise_cons.mp hs with ⟨hp, hs'⟩
    have hv' : ValidL (q :: rest) := fun y hy => hv y (by simp [List.mem_cons.mp hy])
    have hlt : p.2 < q.1 := by
      rcases merge_two_eq_none_iff.mp hm with h | h
      · exact h
      · have h1 : p.1 ≤ q.1 := hp q (by simp)
        have h2 : q.1 ≤ q.2 := hv q (by simp)
        linarith
    rcases mergeLoop_head_start (q :: rest) hs' q rest rfl with ⟨e, t, ht⟩
    show Separated (p :: mergeLoop (q :: rest))
    rw [Separated, List.chain'_cons']
    refine ⟨?_, ih hv' hs'⟩
    intro b hb
    rw [ht] at hb
    simp at hb
    rw [← hb]
    exact hlt

theorem mergeLoop_of_chain_none :
    ∀ l, l.Chain' (fun p q => merge_two_datetime_periods p q = none) → mergeLoop l = l := by
  intro l
  induction l using mergeLoop.induct with
  | case1 => intro _; rw [mergeLoop]
  | case2 p => intro _; rw [mergeLoop]
  | case3 p q rest r hm ih =>
    intro hc
    rcases List.chain'_cons.mp hc with ⟨hn, _⟩
    rw [hn] at hm
    exact Option.noConfusion hm
  | case4 p q rest hm ih =>
    intro hc
    rw [mergeLoop, hm, ih (List.chain'_cons.mp hc).2]

theorem cover_perm {l l' : List Period} (h : l.Perm l') : cover l = cover l' := by
  ext x
  simp only [cover, Set.mem_setOf_eq]
  constructor <;> rintro ⟨p, hp, hx⟩
  · exact ⟨p, h.mem_iff.mp hp, hx⟩
  · exact ⟨p, h.mem_iff.mpr hp, hx⟩

theorem mergeLoop_cover : ∀ l, cover (mergeLoop l) = cover l := by
  intro l
  induction l using mergeLoop.induct with
  | case1 => rw [mergeLoop]
  | case2 p => rw [mergeLoop]
  | case3 p q rest r hm ih =>
    rw [mergeLoop, hm]
    show cover (mergeLoop (r :: rest)) = _
    rw [ih]
    rcases merge_two_eq_some_iff.mp hm with ⟨⟨h1, h2⟩, hr⟩
    ext x
    simp only [cover, Set.mem_setOf_eq, List.mem_cons]
    constructor
    · rintro ⟨p', hp', hx1, hx2⟩
      rcases hp' with rfl | hp'
      · rw [hr] at hx1 hx2
        simp only at hx1 hx2
        rcases le_max_iff.mp hx2 with hxp | hxq
        · by_cases hp1 : p.1 ≤ x
          · exact ⟨p, Or.inl rfl, hp1, hxp⟩
          · push_neg at hp1
            have hq1 : q.1 ≤ x := by
              rcases min_le_iff.mp hx1 with h | h
              · linarith
              · exact h
            exact ⟨q, Or.inr (Or.inl rfl), hq1, by linarith⟩
        · by_cases hq1 : q.1 ≤ x
          · exact ⟨q, Or.inr (Or.inl rfl), hq1, hxq⟩
          · push_neg at hq1
            have hp1 : p.1 ≤ x := by
              rcases min_le_iff.mp hx1 with h | h
              · exact h
              · linarith
            exact ⟨p, Or.inl rfl, hp1, by linarith⟩
      · exact ⟨p', Or.inr (Or.inr hp'), hx1, hx2⟩
    · rintro ⟨p', hp', hx1, hx2⟩
      rcases hp' with rfl | rfl | hp'
      · refine ⟨r, Or.inl rfl, ?_, ?_⟩ <;> rw [hr]
        · exact le_trans (min_le_left _ _) hx1
        · exact le_trans hx2 (le_max_left _ _)
      · refine ⟨r, Or.inl rfl, ?_, ?_⟩ <;> rw [hr]
        · exact le_trans (min_le_right _ _) hx1
        · exact le_trans hx2 (le_max_right _ _)
      · exact ⟨p', Or.inr hp', hx1, hx2⟩
  | case4 p q rest hm ih =>
    rw [mergeLoop, hm]
    show cover (p :: mergeLoop (q :: rest)) = _
    ext x
    simp only [cover, Set.mem_setOf_eq, List.mem_cons]
    constructor
    · rintro ⟨p', hp', hx⟩
      rcases hp' with rfl | hp'
      · exact ⟨p', Or.inl rfl, hx⟩
      · have : x ∈ cover (q :: rest) := ih ▸ ⟨p', hp', hx⟩
        rcases this with ⟨p'', hp'', hx'⟩
        exact ⟨p'', Or.inr (List.mem_cons.mp hp''), hx'⟩
    · rintro ⟨p', hp', hx⟩
      rcases hp' with rfl | hp'
      · exact ⟨p', Or.inl rfl, hx⟩
      · have : x ∈ cover (mergeLoop (q :: rest)) :=
          ih.symm ▸ ⟨p', List.mem_cons.mpr hp', hx⟩
        rcases this with ⟨p'', hp'', hx'⟩
        exact ⟨p'', Or.inr hp'', hx'⟩

theorem sumDur_cons (p : Period) (l : List Period) :
    sumDurationSeconds (p :: l) = (p.2 - p.1) + sumDurationSeconds l := by
  simp [sumDurationSeconds]

theorem mergeLoop_sumDur_le :
    ∀ l, ValidL l → sumDurationSeconds (mergeLoop l) ≤ sumDurationSeconds l := by
  intro l
  induction l using mergeLoop.induct with
  | case1 => intro _; rw [mergeLoop]
  | case2 p => intro _; rw [mergeLoop]
  | case3 p q rest r hm ih =>
    intro hv
    rw [mergeLoop, hm]
    show sumDurationSeconds (mergeLoop (r :: rest)) ≤ _
    rcases merge_two_eq_some_iff.mp hm with ⟨⟨h1, h2⟩, hr⟩
    have hvr : ValidL (r :: rest) := by
      intro x hx
      rcases List.mem_cons.mp hx with hx | hx
      · subst hx
        rw [hr]
        exact le_trans (min_le_left _ _) (le_trans (hv p (by simp)) (le_max_left _ _))
      · exact hv x (by simp [hx])
    refine le_trans (ih hvr) ?_
    rw [sumDur_cons, sumDur_cons, sumDur_cons, hr]
    have hp := hv p (by simp)
    have hq := hv q (by simp)
    simp only
    rcases le_total p.2 q.2 with h | h <;> rcases le_total p.1 q.1 with h' | h' <;>
      simp [min_eq_left, min_eq_right, max_eq_left, max_eq_right, h, h'] <;> linarith
  | case4 p q rest hm ih =>
    intro hv
    rw [mergeLoop, hm]
    show sumDurationSeconds (p :: mergeLoop (q :: rest)) ≤ _
    rw [sumDur_cons, sumDur_cons]
    have hv' : ValidL (q :: rest) := fun y hy => hv y (by simp [List.mem_cons.mp hy])
    linarith [ih hv']

instance : IsTotal Period (fun a b : Period => a.1 ≤ b.1) :=
  ⟨fun a b => le_total a.1 b.1⟩

instance : IsTrans Period (fun a b : Period => a.1 ≤ b.1) :=
  ⟨fun _ _ _ => le_trans⟩

theorem sortPeriods_perm (l : List Period) :
    (List.insertionSort (fun a b : Period => a.1 ≤ b.1) l).Perm l :=
  List.perm_insertionSort _ l

theorem sortPeriods_sorted (l : List Period) :
    SortedStart (List.insertionSort (fun a b : Period => a.1 ≤ b.1) l) :=
  List.sorted_insertionSort _ l

theorem merge_valid {l : List Period} (hv : ValidL l) :
    ValidL (merge_datetime_periods l) :=
  mergeLoop_valid _ (fun p hp => hv p ((sortPeriods_perm l).subset hp))

theorem merge_sorted (l : List Period) : SortedStart (merge_datetime_periods l) :=
  mergeLoop_sorted _ (sortPeriods_sorted l)

theorem merge_separated {l : List Period} (hv : ValidL l) :
    Separated (merge_datetime_periods l) :=
  mergeLoop_separated _ (fun p hp => hv p ((sortPeriods_perm l).subset hp))
    (sortPeriods_sorted l)

theorem separated_chain_none {l : List Period} (hsep : Separated l) :
    l.Chain' (fun p q => merge_two_datetime_periods p q = none) :=
  List.Chain'.imp (fun _ _ h => merge_two_eq_none_iff.mpr (Or.inl h)) hsep

theorem merge_of_canonical {l : List Period} (hs : SortedStart l) (hsep : Separated l) :
    merge_datetime_periods l = l := by
  unfold merge_datetime_periods
  rw [List.Sorted.insertionSort_eq hs]
  exact mergeLoop_of_chain_none l (separated_chain_none hsep)

theorem merge_idem {l : List Period} (hv : ValidL l) :
    merge_datetime_periods (merge_datetime_periods l) = merge_datetime_periods l :=
  merge_of_canonical (merge_sorted l) (merge_separated hv)

theorem merge_cover (l : List Period) :
    cover (merge_datetime_periods l) = cover l := by
  unfold merge_datetime_periods
  rw [mergeLoop_cover]
  exact cover_perm (sortPeriods_perm l)

theorem start_le_of_mem_cover {q : Period} {t : List Period} {x : ℚ}
    (hs : SortedStart (q :: t)) (hx : x ∈ cover (q :: t)) : q.1 ≤ x := by
  rcases hx with ⟨r, hr, hx1, hx2⟩
  rcases List.mem_cons.mp hr with rfl | hr
  · exact hx1
  · exact le_trans ((List.pairwise_cons.mp hs).1 r hr) hx1

theorem cover_tail {p : Period} {t : List Period}
    (hs : SortedStart (p :: t)) (hsep : Separated (p :: t)) :
    cover t = {x ∈ cover (p :: t) | p.2 < x} := by
  ext x
  simp only [Set.mem_setOf_eq, Set.mem_sep_iff]
  constructor
  · intro hx
    have hmem : x ∈ cover (p :: t) := by
      rcases hx with ⟨r, hr, hx'⟩
      exact ⟨r, List.mem_cons.mpr (Or.inr hr), hx'⟩
    refine ⟨hmem, ?_⟩
    rcases t with _ | ⟨q, t'⟩
    · rcases hx with ⟨r, hr, _⟩
      exact absurd hr (by simp)
    · have h1 : p.2 < q.1 := (List.chain'_cons.mp hsep).1
      have h2 : q.1 ≤ x :=
        start_le_of_mem_cover (List.pairwise_cons.mp hs).2 hx
      linarith
  · rintro ⟨⟨r, hr, hx1, hx2⟩, hlt⟩
    rcases List.mem_cons.mp hr with rfl | hr
    · linarith
    · exact ⟨r, hr, hx1, hx2⟩

theorem end_not_lt (p : Period) (t₁ : List Period) (q : Period) (t₂ : List Period)
    (hv₁ : ValidL (p :: t₁)) (hs₁ : SortedStart (p :: t₁)) (hsep₁ : Separated (p :: t₁))
    (hv₂ : ValidL (q :: t₂)) (hs₂ : SortedStart (q :: t₂)) (hsep₂ : Separated (q :: t₂))
    (hc : cover (p :: t₁) = cover (q :: t₂)) (hstart : p.1 = q.1) (hlt : p.2 < q.2) :
    False := by
  have hpv : p.1 ≤ p.2 := hv₁ p (by simp)
  rcases t₁ with _ | ⟨r, t'⟩
  · set x : ℚ := (p.2 + q.2) / 2 with hx
    have hx1 : p.2 < x := by rw [hx]; linarith
    have hx2 : x < q.2 := by rw [hx]; linarith
    have hmem : x ∈ cover (q :: t₂) := ⟨q, by simp, by rw [← hstart]; linarith, le_of_lt hx2⟩
    rw [← hc] at hmem
    rcases hmem with ⟨r', hr', hy1, hy2⟩
    rcases List.mem_cons.mp hr' with rfl | hr'
    · linarith
    · exact absurd hr' (by simp)
  · have hsepr : p.2 < r.1 := (List.chain'_cons.mp hsep₁).1
    set m : ℚ := min q.2 r.1 with hm
    have hpm : p.2 < m := lt_min hlt hsepr
    set x : ℚ := (p.2 + m) / 2 with hx
    have hx1 : p.2 < x := by rw [hx]; linarith
    have hx2 : x < m := by rw [hx]; linarith
    have hmem : x ∈ cover (q :: t₂) := by
      refine ⟨q, by simp, by rw [← hstart]; linarith, ?_⟩
      have : m ≤ q.2 := min_le_left _ _
      linarith
    rw [← hc] at hmem
    rcases hmem with ⟨r', hr', hy1, hy2⟩
    rcases List.mem_cons.mp hr' with rfl | hr'
    · linarith
    · have hxm : x ∈ cover (r :: t') := ⟨r', hr', hy1, hy2⟩
      have : r.1 ≤ x := start_le_of_mem_cover (List.pairwise_cons.mp hs₁).2 hxm
      have hmr : m ≤ r.1 := min_le_right _ _
      linarith

theorem canonical_unique :
    ∀ l₁ l₂ : List Period, ValidL l₁ → SortedStart l₁ → Separated l₁ →
      ValidL l₂ → SortedStart l₂ → Separated l₂ → cover l₁ = cover l₂ → l₁ = l₂ := by
  intro l₁
  induction l₁ with
  | nil =>
    intro l₂ _ _ _ hv₂ _ _ hc
    rcases l₂ with _ | ⟨q, t₂⟩
    · rfl
    · exfalso
      have : q.1 ∈ cover (q :: t₂) := ⟨q, by simp, le_refl _, hv₂ q (by simp)⟩
      rw [← hc] at this
      rcases this with ⟨r, hr, _⟩
      exact absurd hr (by simp)
  | cons p t₁ ih =>
    intro l₂ hv₁ hs₁ hsep₁ hv₂ hs₂ hsep₂ hc
    rcases l₂ with _ | ⟨q, t₂⟩
    · exfalso
      have : p.1 ∈ cover (p :: t₁) := ⟨p, by simp, le_refl _, hv₁ p (by simp)⟩
      rw [hc] at this
      rcases this with ⟨r, hr, _⟩
      exact absurd hr (by simp)
    · have hstart : p.1 = q.1 := by
        have hpq : q.1 ≤ p.1 := by
          have : p.1 ∈ cover (q :: t₂) := by
            rw [← hc]
            exact ⟨p, by simp, le_refl _, hv₁ p (by simp)⟩
          exact start_le_of_mem_cover hs₂ this
        have hqp : p.1 ≤ q.1 := by
          have : q.1 ∈ cover (p :: t₁) := by
            rw [hc]
            exact ⟨q, by simp, le_refl _, hv₂ q (by simp)⟩
          exact start_le_of_mem_cover hs₁ this
        linarith
      have hend : p.2 = q.2 := by
        by_contra hne
        rcases lt_or_gt_of_ne hne with hlt | hlt
        · exact end_not_lt p t₁ q t₂ hv₁ hs₁ hsep₁ hv₂ hs₂ hsep₂ hc hstart hlt
        · exact end_not_lt q t₂ p t₁ hv₂ hs₂ hsep₂ hv₁ hs₁ hsep₁ hc.symm hstart.symm hlt
      have hpq : p = q := Prod.ext hstart hend
      subst hpq
      have htails : cover t₁ = cover t₂ := by
        rw [cover_tail hs₁ hsep₁, cover_tail hs₂ hsep₂, hc]
      rw [ih t₂ (fun x hx => hv₁ x (by simp [hx])) (List.pairwise_cons.mp hs₁).2
        hsep₁.tail (fun x hx => hv₂ x (by simp [hx])) (List.pairwise_cons.mp hs₂).2
        hsep₂.tail htails]

theorem merge_perm_eq {l l' : List Period} (hv : ValidL l) (hp : l.Perm l') :
    merge_datetime_periods l = merge_datetime_periods l' := by
  have hv' : ValidL l' := fun x hx => hv x (hp.mem_iff.mpr hx)
  exact canonical_unique _ _ (merge_valid hv) (merge_sorted l) (merge_separated hv)
    (merge_valid hv') (merge_sorted l') (merge_separated hv')
    (by rw [merge_cover, merge_cover]; exact cover_perm hp)

theorem merge_of_noOverlaps {l : List Period} (hno : NoOverlaps l) :
    merge_datetime_periods l = List.insertionSort (fun a b : Period => a.1 ≤ b.1) l := by
  unfold merge_datetime_periods
  apply mergeLoop_of_chain_none
  exact (hno.perm (sortPeriods_perm l).symm
    (fun hxy => merge_two_none_symm hxy)).chain'

theorem minutes_perm {l l' : List Period} (h : l.Perm l') :
    calculate_datetime_minutes l = calculate_datetime_minutes l' :=
  List.Perm.sum_eq (h.map _)

theorem pyInt_eq_floor {q : ℚ} (h : 0 ≤ q) : pyInt q = ⌊q⌋ := if_pos h

theorem pyInt_nonneg {q : ℚ} (h : 0 ≤ q) : 0 ≤ pyInt q := by
  rw [pyInt_eq_floor h]
  exact Int.floor_nonneg.mpr h

theorem minutes_nonneg {l : List Period} (hv : ValidL l) :
    0 ≤ calculate_datetime_minutes l := by
  apply List.sum_nonneg
  intro x hx
  rcases List.mem_map.mp hx with ⟨p, hp, rfl⟩
  apply pyInt_nonneg
  have := hv p hp
  have h60 : (0:ℚ) < 60 := by norm_num
  exact div_nonneg (by linarith) (le_of_lt h60)

theorem mergeLoop_nil : mergeLoop [] = [] := by rw [mergeLoop]

theorem mergeLoop_single (p : Period) : mergeLoop [p] = [p] := by rw [mergeLoop]

theorem mergeLoop_cons_eval (p q : Period) (rest : List Period) :
    mergeLoop (p :: q :: rest) =
      if p.2 < q.1 ∨ q.2 < p.1 then p :: mergeLoop (q :: rest)
      else mergeLoop ((min p.1 q.1, max p.2 q.2) :: rest) := by
  by_cases h : p.2 < q.1 ∨ q.2 < p.1
  · rw [if_pos h, mergeLoop, merge_two_eq_none_iff.mpr h]
  · rw [if_neg h, mergeLoop,
      merge_two_eq_some_iff.mpr ⟨by push_neg at h; exact ⟨h.1, h.2⟩, rfl⟩]

theorem mergeLoop_eq_fuel : ∀ n l, l.length ≤ n → mergeLoop l = mergeLoopFuel n l := by
  intro n
  induction n with
  | zero =>
    intro l hl
    rcases l with _ | ⟨p, t⟩
    · rw [mergeLoop_nil, mergeLoopFuel]
    · simp at hl
  | succ n ih =>
    intro l hl
    rcases l with _ | ⟨p, t⟩
    · rw [mergeLoop_nil, mergeLoopFuel]
    · rcases t with _ | ⟨q, rest⟩
      · rw [mergeLoop_single, mergeLoopFuel]
      · rw [mergeLoop]
        cases hm : merge_two_datetime_periods p q with
        | some r =>
          rw [show mergeLoopFuel (n + 1) (p :: q :: rest) =
              match merge_two_datetime_periods p q with
              | some r => mergeLoopFuel n (r :: rest)
              | none => p :: mergeLoopFuel n (q :: rest) from rfl, hm]
          exact ih (r :: rest) (by simpa using Nat.le_of_succ_le_succ hl)
        | none =>
          rw [show mergeLoopFuel (n + 1) (p :: q :: rest) =
              match merge_two_datetime_periods p q with
              | some r => mergeLoopFuel n (r :: rest)
              | none => p :: mergeLoopFuel n (q :: rest) from rfl, hm]
          rw [ih (q :: rest) (by simpa using Nat.le_of_succ_le_succ hl)]

theorem merge_eval (l : List Period) :
    merge_datetime_periods l =
      mergeLoopFuel (List.insertionSort (fun a b : Period => a.1 ≤ b.1) l).length
        (List.insertionSort (fun a b : Period => a.1 ≤ b.1) l) :=
  mergeLoop_eq_fuel _ _ le_rfl

theorem merge_single (p : Period) : merge_datetime_periods [p] = [p] := by
  unfold merge_datetime_periods
  exact mergeLoop_single p

theorem insertionSort_pair_le {p q : Period} (h : p.1 ≤ q.1) :
    List.insertionSort (fun a b : Period => a.1 ≤ b.1) [p, q] = [p, q] := by
  simp [List.insertionSort, List.orderedInsert, h]

theorem merge_pair_overlap {p q : Period} (h1 : p.1 ≤ q.1)
    (h2 : ¬(p.2 < q.1 ∨ q.2 < p.1)) :
    merge_datetime_periods [p, q] = [(min p.1 q.1, max p.2 q.2)] := by
  unfold merge_datetime_periods
  rw [insertionSort_pair_le h1, mergeLoop_cons_eval, if_neg h2]
  exact mergeLoop_single _

theorem insertionSort_pair_gt {p q : Period} (h : ¬p.1 ≤ q.1) :
    List.insertionSort (fun a b : Period => a.1 ≤ b.1) [p, q] = [q, p] := by
  simp [List.insertionSort, List.orderedInsert, h]

theorem merge_pair_overlap_gt {p q : Period} (h1 : ¬p.1 ≤ q.1)
    (h2 : ¬(q.2 < p.1 ∨ p.2 < q.1)) :
    merge_datetime_periods [p, q] = [(min q.1 p.1, max q.2 p.2)] := by
  unfold merge_datetime_periods
  rw [insertionSort_pair_gt h1, mergeLoop_cons_eval, if_neg h2]
  exact mergeLoop_single _

/-! ## Claim theorems -/

/-- C3: for every list of intervals each with start ≤ end, merge is
idempotent, its output is sorted by start and pairwise disjoint with
touching intervals folded together (consecutive output intervals satisfy
prev.end < next.start), and the output does not depend on the order of
the input list. -/
theorem C3_interval_merger (l l' : List Period) (hv : ValidL l) (hperm : l.Perm l') :
    merge_datetime_periods (merge_datetime_periods l) = merge_datetime_periods l ∧
    SortedStart (merge_datetime_periods l) ∧
    Separated (merge_datetime_periods l) ∧
    merge_datetime_periods l = merge_datetime_periods l' :=
  ⟨merge_idem hv, merge_sorted l, merge_separated hv, merge_perm_eq hv hperm⟩

theorem C3_interval_merger_witness :
    ValidL [((0:ℚ), 2), (1, 3)] ∧
    (merge_datetime_periods (merge_datetime_periods [((0:ℚ), 2), (1, 3)]) =
        merge_datetime_periods [((0:ℚ), 2), (1, 3)] ∧
      SortedStart (merge_datetime_periods [((0:ℚ), 2), (1, 3)]) ∧
      Separated (merge_datetime_periods [((0:ℚ), 2), (1, 3)]) ∧
      merge_datetime_periods [((0:ℚ), 2), (1, 3)] =
        merge_datetime_periods [((1:ℚ), 3), (0, 2)]) :=
  ⟨by decide, C3_interval_merger _ _ (by decide) (List.Perm.swap _ _ _)⟩

/-- C4 as stated is false: for x = [(0s,600s),(0s,600s)], which contains
overlapping intervals, totalMinutes(merge(x)) = 10 is strictly below the
naive per-interval sum 20, refuting the claimed ≥ direction. -/
theorem C4_counterexample :
    merge_two_datetime_periods ((0:ℚ), 600) ((0:ℚ), 600) ≠ none ∧
    ¬(calculate_datetime_minutes (merge_datetime_periods [((0:ℚ), 600), (0, 600)]) ≥
        calculate_datetime_minutes [((0:ℚ), 600), (0, 600)]) := by
  constructor
  · decide
  · have h : merge_datetime_periods [((0:ℚ), 600), (0, 600)] = [((0:ℚ), 600)] := by
      norm_num [merge_datetime_periods, mergeLoop_cons_eval, mergeLoop_single]
    rw [h]
    norm_num [calculate_datetime_minutes, pyInt]

/-- C4 amended: for every list of valid intervals, the exact duration in
seconds of merge(x) is at most the naive per-interval sum of seconds;
totalMinutes(merge(x)) equals the naive totalMinutes(x) when no two
intervals of x overlap or touch; and totalMinutes truncates each valid
interval's duration downward to whole minutes (floor of the duration
delta over 60). -/
theorem C4_total_minutes (l : List Period) (hv : ValidL l) :
    sumDurationSeconds (merge_datetime_periods l) ≤ sumDurationSeconds l ∧
    (NoOverlaps l →
      calculate_datetime_minutes (merge_datetime_periods l) =
        calculate_datetime_minutes l) ∧
    (∀ p ∈ l, pyInt ((p.2 - p.1) / 60) = ⌊(p.2 - p.1) / 60⌋) := by
  refine ⟨?_, ?_, ?_⟩
  · unfold merge_datetime_periods
    refine le_trans
      (mergeLoop_sumDur_le _ (fun p hp => hv p ((sortPeriods_perm l).subset hp))) ?_
    exact le_of_eq (List.Perm.sum_eq ((sortPeriods_perm l).map _))
  · intro hno
    rw [merge_of_noOverlaps hno]
    exact minutes_perm (sortPeriods_perm l)
  · intro p hp
    exact pyInt_eq_floor (div_nonneg (by have := hv p hp; linarith) (by norm_num))

theorem C4_total_minutes_witness :
    ValidL [((0:ℚ), 60), (120, 180)] ∧
    (sumDurationSeconds (merge_datetime_periods [((0:ℚ), 60), (120, 180)]) ≤
        sumDurationSeconds [((0:ℚ), 60), (120, 180)] ∧
      (NoOverlaps [((0:ℚ), 60), (120, 180)] →
        calculate_datetime_minutes (merge_datetime_periods [((0:ℚ), 60), (120, 180)]) =
          calculate_datetime_minutes [((0:ℚ), 60), (120, 180)]) ∧
      (∀ p ∈ [((0:ℚ), 60), (120, 180)],
        pyInt ((p.2 - p.1) / 60) = ⌊(p.2 - p.1) / 60⌋)) :=
  ⟨by decide, C4_total_minutes _ (by decide)⟩

/-- C2: requiredHours is max(0, 8.75 − actualAbsenceHours), and the
per-day status follows the ordered decision chain: (1) zero events with
positive required hours is no-punch, (2) exactly one event with
workedHours below requiredHours is single-punch-missing, (3) otherwise
workedHours below requiredHours is insufficient-attendance, (4)
otherwise normal; in particular zero events with requiredHours = 0 and
nonnegative workedHours is classified normal. -/
theorem C2_status_rules (record_count : ℕ) (work_hours actual : ℚ)
    (hwh : 0 ≤ work_hours) :
    required_hours actual = max 0 (8.75 - actual) ∧
    (record_count = 0 → 0 < required_hours actual →
      decide_status record_count work_hours (required_hours actual) = .noPunch) ∧
    (record_count = 1 → work_hours < required_hours actual →
      decide_status record_count work_hours (required_hours actual) = .singlePunchMissing) ∧
    (¬(record_count = 0 ∧ 0 < required_hours actual) →
      ¬(record_count = 1 ∧ work_hours < required_hours actual) →
      work_hours < required_hours actual →
      decide_status record_count work_hours (required_hours actual) = .insufficient) ∧
    (¬(record_count = 0 ∧ 0 < required_hours actual) →
      ¬(record_count = 1 ∧ work_hours < required_hours actual) →
      ¬(work_hours < required_hours actual) →
      decide_status record_count work_hours (required_hours actual) = .normal) ∧
    (record_count = 0 → required_hours actual = 0 →
      decide_status record_count work_hours (required_hours actual) = .normal) := by
  refine ⟨rfl, ?_, ?_, ?_, ?_, ?_⟩
  · intro h0 hr
    unfold decide_status
    rw [if_pos ⟨h0, hr⟩]
  · intro h1 hlt
    unfold decide_status
    rw [if_neg (by simp [h1]), if_pos ⟨h1, hlt⟩]
  · intro hA hB hlt
    unfold decide_status
    rw [if_neg hA, if_neg hB, if_pos hlt]
  · intro hA hB hlt
    unfold decide_status
    rw [if_neg hA, if_neg hB, if_neg hlt]
  · intro h0 hreq
    unfold decide_status
    rw [if_neg (by simp [hreq]), if_neg (by simp [h0]), if_neg (by rw [hreq]; linarith)]

theorem C2_status_rules_witness :
    (0:ℚ) ≤ 9 ∧
    (required_hours 0 = max 0 (8.75 - 0) ∧
      (2 = 0 → 0 < required_hours 0 →
        decide_status 2 9 (required_hours 0) = .noPunch) ∧
      (2 = 1 → (9:ℚ) < required_hours 0 →
        decide_status 2 9 (required_hours 0) = .singlePunchMissing) ∧
      (¬(2 = 0 ∧ 0 < required_hours 0) →
        ¬(2 = 1 ∧ (9:ℚ) < required_hours 0) →
        (9:ℚ) < required_hours 0 →
        decide_status 2 9 (required_hours 0) = .insufficient) ∧
      (¬(2 = 0 ∧ 0 < required_hours 0) →
        ¬(2 = 1 ∧ (9:ℚ) < required_hours 0) →
        ¬((9:ℚ) < required_hours 0) →
        decide_status 2 9 (required_hours 0) = .normal) ∧
      (2 = 0 → required_hours 0 = 0 →
        decide_status 2 9 (required_hours 0) = .normal)) :=
  ⟨by norm_num, C2_status_rules 2 9 0 (by norm_num)⟩

/-- C8: a date in the holiday set is never a workday (holiday wins even
over a simultaneous workday override), a date in the override workday
set but not the holiday set always is, and otherwise a date is a workday
exactly when its weekday is Monday through Friday; in particular a
Saturday listed as compensated workday is a workday, and the same
Saturday with no override is not. -/
theorem C8_calendar_policy (d : ℤ) (work_days holiday_days : List ℤ) :
    (d ∈ holiday_days → is_workday_from_calendar d work_days holiday_days = false) ∧
    (d ∉ holiday_days → d ∈ work_days →
      is_workday_from_calendar d work_days holiday_days = true) ∧
    (d ∉ holiday_days → d ∉ work_days →
      (is_workday_from_calendar d work_days holiday_days = true ↔ pyWeekday d < 5)) ∧
    (pyWeekday d = 5 → d ∉ holiday_days → d ∈ work_days →
      is_workday_from_calendar d work_days holiday_days = true) ∧
    (pyWeekday d = 5 → d ∉ holiday_days → d ∉ work_days →
      is_workday_from_calendar d work_days holiday_days = false) := by
  refine ⟨?_, ?_, ?_, ?_, ?_⟩
  · intro hh
    unfold is_workday_from_calendar
    rw [if_pos hh]
  · intro hh hw
    unfold is_workday_from_calendar
    rw [if_neg hh, if_pos hw]
  · intro hh hw
    unfold is_workday_from_calendar
    rw [if_neg hh, if_neg hw]
    exact decide_eq_true_iff
  · intro _ hh hw
    unfold is_workday_from_calendar
    rw [if_neg hh, if_pos hw]
  · intro hsat hh hw
    unfold is_workday_from_calendar
    rw [if_neg hh, if_neg hw]
    simp [hsat]

theorem C8_calendar_policy_witness :
    is_workday_from_calendar 2 [2] [] = true ∧
    is_workday_from_calendar 2 [] [] = false :=
  ⟨(C8_calendar_policy 2 [2] []).2.2.2.1 (by decide) (by simp) (by simp),
   (C8_calendar_policy 2 [] []).2.2.2.2 (by decide) (by simp) (by simp)⟩

/-- C5: actual absence hours after the lunch adjustment never exceed
9.0; the empty merged list yields exactly 0; and actual ≤ raw does not
hold in general: a leave record [11:00, 12:30] on 2025-04-28 (day
20206), overlapping but not containing the lunch window, yields raw
hours 1.5 but actual hours 2.0. -/
theorem C5_lunch_adjuster :
    (∀ merged_periods : List Period, get_actual_absence_hours merged_periods ≤ 9) ∧
    get_actual_absence_hours [] = 0 ∧
    ((get_absence_hours "A" 20206
        [⟨"A", "已生效", "事假", ⟨2025, 4, 28, some (.explicitTime 11 0)⟩,
           ⟨2025, 4, 28, some (.explicitTime 12 30)⟩⟩] [] []).1 <
      (get_absence_hours "A" 20206
        [⟨"A", "已生效", "事假", ⟨2025, 4, 28, some (.explicitTime 11 0)⟩,
           ⟨2025, 4, 28, some (.explicitTime 12 30)⟩⟩] [] []).2) := by
  refine ⟨?_, rfl, ?_⟩
  · intro l
    rcases l with _ | ⟨p, t⟩
    · norm_num [get_actual_absence_hours]
    · simp only [get_actual_absence_hours]
      exact min_le_right _ _
  · have hd : daysFromCivil 2025 4 28 = 20206 := by decide
    have hws : toSecs ⟨2025, 4, 28, 11, 0⟩ = 1745838000 := by norm_num [toSecs, hd]
    have hwe : toSecs ⟨2025, 4, 28, 12, 30⟩ = 1745843400 := by norm_num [toSecs, hd]
    have hps : parse_datetime_str ⟨2025, 4, 28, some (.explicitTime 11 0)⟩ false =
        some ⟨2025, 4, 28, 11, 0⟩ := by decide
    have hpe : parse_datetime_str ⟨2025, 4, 28, some (.explicitTime 12 30)⟩ true =
        some ⟨2025, 4, 28, 12, 30⟩ := by decide
    have hproc : process_absence_record ⟨2025, 4, 28, some (.explicitTime 11 0)⟩
        ⟨2025, 4, 28, some (.explicitTime 12 30)⟩ 20206 =
        some (1745838000, 1745843400) := by
      rw [process_absence_record, hps, hpe]
      norm_num [hws, hwe, eday, workday_start, workday_end, max_def, min_def]
    have hraw : get_raw_absence_hours "A" 20206
        [[⟨"A", "已生效", "事假", ⟨2025, 4, 28, some (.explicitTime 11 0)⟩,
           ⟨2025, 4, 28, some (.explicitTime 12 30)⟩⟩], [], []] =
        (3/2, [((1745838000 : ℚ), 1745843400)]) := by
      rw [get_raw_absence_hours]
      norm_num [absence_records_for, effective_statuses, List.filterMap_cons,
        List.filterMap_nil, hproc, merge_single, calculate_datetime_minutes,
        pyInt, min_def, Function.comp]
    have hmerge2 : merge_datetime_periods
        [((1745838000 : ℚ), 1745843400), (1745841600, 1745845200)] =
        [((1745838000 : ℚ), 1745845200)] := by
      rw [merge_pair_overlap (by norm_num) (by norm_num)]
      norm_num [min_def, max_def]
    have hact : get_actual_absence_hours [((1745838000 : ℚ), 1745843400)] = 2 := by
      simp only [get_actual_absence_hours]
      norm_num [lunch_start, lunch_end, eday, hmerge2,
        calculate_datetime_minutes, pyInt, min_def]
    rw [get_absence_hours]
    norm_num [hraw, hact]

theorem C5_lunch_adjuster_witness :
    get_actual_absence_hours [] = 0 ∧ get_actual_absence_hours [((0:ℚ), 600)] ≤ 9 :=
  ⟨C5_lunch_adjuster.2.1, C5_lunch_adjuster.1 [((0:ℚ), 600)]⟩

/-- C6: every clipped interval produced by process_absence_record lies
strictly inside the workday window [09:00, 18:00) of the target day
(start at or after 09:00, end at or before 18:00, start strictly before
end), and the capped raw absence hours returned by
get_raw_absence_hours always lie in [0, 9.0]. -/
theorem C6_absence_resolver :
    (∀ (startExpr endExpr : TimeExprRep) (targetDay : ℤ) (p : Period),
      process_absence_record startExpr endExpr targetDay = some p →
      workday_start targetDay ≤ p.1 ∧ p.2 ≤ workday_end targetDay ∧ p.1 < p.2) ∧
    (∀ (name : String) (targetDay : ℤ) (absence_dfs : List (List AbsenceRow)),
      0 ≤ (get_raw_absence_hours name targetDay absence_dfs).1 ∧
      (get_raw_absence_hours name targetDay absence_dfs).1 ≤ 9) := by
  have hclip : ∀ (startExpr endExpr : TimeExprRep) (targetDay : ℤ) (p : Period),
      process_absence_record startExpr endExpr targetDay = some p →
      workday_start targetDay ≤ p.1 ∧ p.2 ≤ workday_end targetDay ∧ p.1 < p.2 := by
    intro se ee day p hp
    rw [process_absence_record] at hp
    cases hps : parse_datetime_str se false with
    | none => rw [hps] at hp; exact Option.noConfusion hp
    | some st =>
      cases hpe : parse_datetime_str ee true with
      | none => rw [hps, hpe] at hp; exact Option.noConfusion hp
      | some en =>
        rw [hps, hpe] at hp
        simp only at hp
        split_ifs at hp with h1 h2
        rcases Option.some.inj hp with rfl
        push_neg at h2
        exact ⟨le_max_right _ _, min_le_right _ _, h2⟩
  refine ⟨hclip, ?_⟩
  intro name day dfs
  rw [get_raw_absence_hours]
  simp only
  split
  · norm_num
  · have hvalid : ValidL (dfs.flatMap (fun df =>
        (absence_records_for df name).filterMap
          (fun r => process_absence_record r.startExpr r.endExpr day))) := by
      intro p hp
      rcases List.mem_flatMap.mp hp with ⟨df, _, hpf⟩
      rcases List.mem_filterMap.mp hpf with ⟨r, _, hr⟩
      exact le_of_lt (hclip _ _ _ _ hr).2.2
    have hmin : (0:ℤ) ≤ calculate_datetime_minutes (merge_datetime_periods
        (dfs.flatMap (fun df => (absence_records_for df name).filterMap
          (fun r => process_absence_record r.startExpr r.endExpr day)))) :=
      minutes_nonneg (merge_valid hvalid)
    constructor
    · refine le_min ?_ (by norm_num)
      have : (0:ℚ) ≤ ((calculate_datetime_minutes (merge_datetime_periods _) : ℤ) : ℚ) :=
        Int.cast_nonneg.mpr hmin
      exact div_nonneg this (by norm_num)
    · exact min_le_right _ _

theorem C6_absence_resolver_witness :
    process_absence_record ⟨2025, 4, 28, none⟩ ⟨2025, 4, 28, none⟩ 20206 =
        some (1745830800, 1745863200) ∧
    (workday_start 20206 ≤ ((1745830800 : ℚ), (1745863200 : ℚ)).1 ∧
      ((1745830800 : ℚ), (1745863200 : ℚ)).2 ≤ workday_end 20206 ∧
      ((1745830800 : ℚ), (1745863200 : ℚ)).1 < ((1745830800 : ℚ), (1745863200 : ℚ)).2) ∧
    (0 ≤ (get_raw_absence_hours "A" 20206 []).1 ∧
      (get_raw_absence_hours "A" 20206 []).1 ≤ 9) := by
  have hps : parse_datetime_str ⟨2025, 4, 28, none⟩ false = some ⟨2025, 4, 28, 9, 0⟩ := by
    decide
  have hpe : parse_datetime_str ⟨2025, 4, 28, none⟩ true = some ⟨2025, 4, 28, 18, 0⟩ := by
    decide
  have hp : process_absence_record ⟨2025, 4, 28, none⟩ ⟨2025, 4, 28, none⟩ 20206 =
      some (1745830800, 1745863200) := by
    rw [process_absence_record, hps, hpe]
    norm_num [toSecs, (by decide : daysFromCivil 2025 4 28 = 20206), eday,
      workday_start, workday_end, max_def, min_def]
  exact ⟨hp, C6_absence_resolver.1 _ _ _ _ hp, C6_absence_resolver.2 "A" 20206 []⟩

/-- C7: parsing a time expression yields 09:00/18:00 for a bare date,
09:00/12:00 for a morning marker, 13:00/18:00 for an afternoon marker,
exactly the given time for an explicit valid HH:MM regardless of the
end flag; it fails on an invalid calendar date or an invalid explicit
time, and such a parse failure makes process_absence_record skip the
record (return none) rather than abort. -/
theorem C7_time_expression_parsing :
    (∀ y m d : ℤ, validDate y m d = true →
      parse_datetime_str ⟨y, m, d, none⟩ false = some ⟨y, m, d, 9, 0⟩ ∧
      parse_datetime_str ⟨y, m, d, none⟩ true = some ⟨y, m, d, 18, 0⟩) ∧
    (∀ y m d : ℤ, validDate y m d = true →
      parse_datetime_str ⟨y, m, d, some .morning⟩ false = some ⟨y, m, d, 9, 0⟩ ∧
      parse_datetime_str ⟨y, m, d, some .morning⟩ true = some ⟨y, m, d, 12, 0⟩) ∧
    (∀ y m d : ℤ, validDate y m d = true →
      parse_datetime_str ⟨y, m, d, some .afternoon⟩ false = some ⟨y, m, d, 13, 0⟩ ∧
      parse_datetime_str ⟨y, m, d, some .afternoon⟩ true = some ⟨y, m, d, 18, 0⟩) ∧
    (∀ (y m d h mi : ℤ) (flag : Bool), validDate y m d = true → validHM h mi = true →
      parse_datetime_str ⟨y, m, d, some (.explicitTime h mi)⟩ flag =
        some ⟨y, m, d, h, mi⟩) ∧
    (∀ (e : TimeExprRep) (flag : Bool), validDate e.y e.m e.d = false →
      parse_datetime_str e flag = none) ∧
    (∀ (y m d h mi : ℤ) (flag : Bool), validHM h mi = false →
      parse_datetime_str ⟨y, m, d, some (.explicitTime h mi)⟩ flag = none) ∧
    (∀ (se ee : TimeExprRep) (targetDay : ℤ),
      (parse_datetime_str se false = none ∨ parse_datetime_str ee true = none) →
      process_absence_record se ee targetDay = none) := by
  refine ⟨?_, ?_, ?_, ?_, ?_, ?_, ?_⟩
  · intro y m d h
    constructor <;> simp [parse_datetime_str, h]
  · intro y m d h
    constructor <;> simp [parse_datetime_str, h]
  · intro y m d h
    constructor <;> simp [parse_datetime_str, h]
  · intro y m d h mi flag hd hm
    simp [parse_datetime_str, hd, hm]
  · intro e flag h
    simp [parse_datetime_str, h]
  · intro y m d h mi flag hm
    by_cases hd : validDate y m d <;> simp [parse_datetime_str, hd, hm]
  · intro se ee day hf
    rw [process_absence_record]
    rcases hf with h | h
    · rw [h]
    · rw [h]
      cases hs : parse_datetime_str se false <;> rfl

theorem C7_time_expression_parsing_witness :
    parse_datetime_str ⟨2025, 4, 28, none⟩ false = some ⟨2025, 4, 28, 9, 0⟩ ∧
    parse_datetime_str ⟨2025, 4, 28, some .morning⟩ true = some ⟨2025, 4, 28, 12, 0⟩ ∧
    parse_datetime_str ⟨2025, 4, 28, some .afternoon⟩ false = some ⟨2025, 4, 28, 13, 0⟩ ∧
    parse_datetime_str ⟨2025, 4, 28, some (.explicitTime 11 0)⟩ true =
      some ⟨2025, 4, 28, 11, 0⟩ ∧
    parse_datetime_str ⟨2025, 2, 30, none⟩ false = none ∧
    parse_datetime_str ⟨2025, 4, 28, some (.explicitTime 24 0)⟩ false = none ∧
    process_absence_record ⟨2025, 2, 30, none⟩ ⟨2025, 4, 28, none⟩ 20206 = none :=
  ⟨(C7_time_expression_parsing.1 2025 4 28 (by decide)).1,
   (C7_time_expression_parsing.2.1 2025 4 28 (by decide)).2,
   (C7_time_expression_parsing.2.2.1 2025 4 28 (by decide)).1,
   C7_time_expression_parsing.2.2.2.1 2025 4 28 11 0 true (by decide) (by decide),
   C7_time_expression_parsing.2.2.2.2.1 ⟨2025, 2, 30, none⟩ false (by decide),
   C7_time_expression_parsing.2.2.2.2.2.1 2025 4 28 24 0 false (by decide),
   C7_time_expression_parsing.2.2.2.2.2.2 ⟨2025, 2, 30, none⟩ ⟨2025, 4, 28, none⟩ 20206
     (Or.inl (C7_time_expression_parsing.2.2.2.2.1 ⟨2025, 2, 30, none⟩ false (by decide)))⟩

/-- C9: when the merged absence intervals plus the synthetic lunch
interval of the first interval's day re-merge to exactly the lunch
interval, the removal step deletes it and actual absence hours are 0;
concretely, the single merged interval [12:10, 12:50] of day 20206
(2025-04-28, inside the lunch window) collapses this way, and the
pipeline then reports positive raw hours 2/3 with actual hours 0. -/
theorem C9_lunch_collapse (p : Period) (rest : List Period)
    (hcollapse : merge_datetime_periods ((p :: rest) ++
        [(lunch_start (eday p.1), lunch_end (eday p.1))]) =
      [(lunch_start (eday p.1), lunch_end (eday p.1))]) :
    get_actual_absence_hours (p :: rest) = 0 ∧
    (0 < (get_raw_absence_hours "A" 20206
        [[⟨"A", "已生效", "事假", ⟨2025, 4, 28, some (.explicitTime 12 10)⟩,
           ⟨2025, 4, 28, some (.explicitTime 12 50)⟩⟩]]).1 ∧
      get_actual_absence_hours (get_raw_absence_hours "A" 20206
        [[⟨"A", "已生效", "事假", ⟨2025, 4, 28, some (.explicitTime 12 10)⟩,
           ⟨2025, 4, 28, some (.explicitTime 12 50)⟩⟩]]).2 = 0) := by
  constructor
  · simp only [get_actual_absence_hours]
    rw [hcollapse]
    norm_num [calculate_datetime_minutes, min_def]
  · have hd : daysFromCivil 2025 4 28 = 20206 := by decide
    have hps : parse_datetime_str ⟨2025, 4, 28, some (.explicitTime 12 10)⟩ false =
        some ⟨2025, 4, 28, 12, 10⟩ := by decide
    have hpe : parse_datetime_str ⟨2025, 4, 28, some (.explicitTime 12 50)⟩ true =
        some ⟨2025, 4, 28, 12, 50⟩ := by decide
    have hws : toSecs ⟨2025, 4, 28, 12, 10⟩ = 1745842200 := by norm_num [toSecs, hd]
    have hwe : toSecs ⟨2025, 4, 28, 12, 50⟩ = 1745844600 := by norm_num [toSecs, hd]
    have hproc : process_absence_record ⟨2025, 4, 28, some (.explicitTime 12 10)⟩
        ⟨2025, 4, 28, some (.explicitTime 12 50)⟩ 20206 =
        some (1745842200, 1745844600) := by
      rw [process_absence_record, hps, hpe]
      norm_num [hws, hwe, eday, workday_start, workday_end, max_def, min_def]
    have hraw : get_raw_absence_hours "A" 20206
        [[⟨"A", "已生效", "事假", ⟨2025, 4, 28, some (.explicitTime 12 10)⟩,
           ⟨2025, 4, 28, some (.explicitTime 12 50)⟩⟩]] =
        (2/3, [((1745842200 : ℚ), 1745844600)]) := by
      rw [get_raw_absence_hours]
      norm_num [absence_records_for, effective_statuses, List.filterMap_cons,
        List.filterMap_nil, hproc, merge_single, calculate_datetime_minutes,
        pyInt, min_def, Function.comp]
    rw [hraw]
    have hmerge2 : merge_datetime_periods
        [((1745842200 : ℚ), 1745844600), (1745841600, 1745845200)] =
        [((1745841600 : ℚ), 1745845200)] := by
      rw [merge_pair_overlap_gt (by norm_num) (by norm_num)]
      norm_num [min_def, max_def]
    constructor
    · norm_num
    · simp only [get_actual_absence_hours]
      norm_num [lunch_start, lunch_end, eday, hmerge2,
        calculate_datetime_minutes, min_def]

theorem C9_lunch_collapse_witness :
    merge_datetime_periods (([((1745842200 : ℚ), 1745844600)]) ++
        [(lunch_start (eday (1745842200 : ℚ)), lunch_end (eday (1745842200 : ℚ)))]) =
      [(lunch_start (eday (1745842200 : ℚ)), lunch_end (eday (1745842200 : ℚ)))] ∧
    get_actual_absence_hours [((1745842200 : ℚ), 1745844600)] = 0 := by
  have hcol : merge_datetime_periods (([((1745842200 : ℚ), 1745844600)]) ++
      [(lunch_start (eday (1745842200 : ℚ)), lunch_end (eday (1745842200 : ℚ)))]) =
      [(lunch_start (eday (1745842200 : ℚ)), lunch_end (eday (1745842200 : ℚ)))] := by
    have h1 : lunch_start (eday (1745842200 : ℚ)) = 1745841600 := by
      norm_num [lunch_start, eday]
    have h2 : lunch_end (eday (1745842200 : ℚ)) = 1745845200 := by
      norm_num [lunch_end, eday]
    rw [h1, h2]
    show merge_datetime_periods [((1745842200 : ℚ), 1745844600), (1745841600, 1745845200)] = _
    rw [merge_pair_overlap_gt (by norm_num) (by norm_num)]
    norm_num [min_def, max_def]
  exact ⟨hcol, (C9_lunch_collapse ((1745842200 : ℚ), 1745844600) [] hcol).1⟩

theorem pyDedup_aux_mem {α : Type _} [DecidableEq α] (l : List α) :
    ∀ (acc : List α) (a : α),
      a ∈ l.foldl (fun acc a => if a ∈ acc then acc else acc ++ [a]) acc ↔
        a ∈ acc ∨ a ∈ l := by
  induction l with
  | nil => intro acc a; simp
  | cons x xs ih =>
    intro acc a
    rw [List.foldl_cons, ih]
    by_cases hx : x ∈ acc
    · rw [if_pos hx]
      constructor
      · rintro (h | h)
        · exact Or.inl h
        · exact Or.inr (List.mem_cons.mpr (Or.inr h))
      · rintro (h | h)
        · exact Or.inl h
        · rcases List.mem_cons.mp h with rfl | h
          · exact Or.inl hx
          · exact Or.inr h
    · rw [if_neg hx]
      constructor
      · rintro (h | h)
        · rcases List.mem_append.mp h with h | h
          · exact Or.inl h
          · simp at h
            exact Or.inr (List.mem_cons.mpr (Or.inl h))
        · exact Or.inr (List.mem_cons.mpr (Or.inr h))
      · rintro (h | h)
        · exact Or.inl (List.mem_append.mpr (Or.inl h))
        · rcases List.mem_cons.mp h with rfl | h
          · exact Or.inl (List.mem_append.mpr (Or.inr (by simp)))
          · exact Or.inr h

theorem pyDedup_mem {α : Type _} [DecidableEq α] (l : List α) (a : α) :
    a ∈ pyDedup l ↔ a ∈ l := by
  unfold pyDedup
  rw [pyDedup_aux_mem]
  simp

theorem pyDedup_aux_nodup {α : Type _} [DecidableEq α] (l : List α) :
    ∀ acc : List α, acc.Nodup →
      (l.foldl (fun acc a => if a ∈ acc then acc else acc ++ [a]) acc).Nodup := by
  induction l with
  | nil => intro acc h; simpa using h
  | cons x xs ih =>
    intro acc h
    rw [List.foldl_cons]
    apply ih
    by_cases hx : x ∈ acc
    · rwa [if_pos hx]
    · rw [if_neg hx]
      exact List.Nodup.append h (List.nodup_singleton x)
        (by simpa [List.disjoint_singleton] using hx)

theorem pyDedup_nodup {α : Type _} [DecidableEq α] (l : List α) :
    (pyDedup l).Nodup :=
  pyDedup_aux_nodup l [] List.nodup_nil

/-- C10: the exception summary has a row exactly for the employees with
at least one record whose status is an exception status (no-punch,
single-punch-missing, or insufficient-attendance); an employee all of
whose records are normal is omitted entirely. -/
theorem C10_summary_membership (records : List AttendanceRecord) (n : String) :
    (n ∈ summary_row_names records ↔
      ∃ r ∈ records, r.name = n ∧ r.status ∈ exception_statuses) ∧
    ((∀ r ∈ records, r.name = n → r.status = .normal) →
      n ∉ summary_row_names records) := by
  have hiff : n ∈ summary_row_names records ↔
      ∃ r ∈ records, r.name = n ∧ r.status ∈ exception_statuses := by
    unfold summary_row_names
    rw [List.mem_insertionSort, pyDedup_mem]
    constructor
    · intro h
      rcases List.mem_map.mp h with ⟨r, hr, rfl⟩
      rcases List.mem_filter.mp hr with ⟨hr1, hr2⟩
      exact ⟨r, hr1, rfl, by simpa using hr2⟩
    · rintro ⟨r, hr, rfl, hs⟩
      exact List.mem_map.mpr ⟨r, List.mem_filter.mpr ⟨hr, by simpa using hs⟩, rfl⟩
  refine ⟨hiff, ?_⟩
  intro hall hmem
  rcases hiff.mp hmem with ⟨r, hr, hname, hstat⟩
  rw [hall r hr hname] at hstat
  simp [exception_statuses] at hstat

theorem C10_summary_membership_witness :
    "A" ∉ summary_row_names [⟨0, "A", 0, 0, 0, 0, 0, .normal, false⟩] :=
  (C10_summary_membership [⟨0, "A", 0, 0, 0, 0, 0, .normal, false⟩] "A").2 (by decide)

theorem count_filter_nodup (names : List String) (nm : String) (hn : names.Nodup) :
    (names.filter (fun x => x = nm)).length = if nm ∈ names then 1 else 0 := by
  induction names with
  | nil => simp
  | cons x xs ih =>
    rcases List.nodup_cons.mp hn with ⟨hx, hxs⟩
    rw [List.filter_cons]
    by_cases heq : x = nm
    · subst heq
      rw [if_pos (by simp), List.length_cons, ih hxs, if_neg hx, if_pos (by simp)]
    · rw [if_neg (by simp [heq]), ih hxs]
      by_cases hmem : nm ∈ xs
      · rw [if_pos hmem, if_pos (List.mem_cons.mpr (Or.inr hmem))]
      · rw [if_neg hmem, if_neg ?_]
        intro hc
        rcases List.mem_cons.mp hc with rfl | hc
        · exact heq rfl
        · exact hmem hc

theorem flatMap_record_count (days : List ℤ) (names : List String)
    (f : ℤ → String → AttendanceRecord)
    (hfd : ∀ d nm, (f d nm).day = d) (hfn : ∀ d nm, (f d nm).name = nm)
    (hd : days.Nodup) (hn : names.Nodup) (day : ℤ) (nm : String) :
    ((days.flatMap (fun d => names.map (f d))).filter
      (fun r => r.name = nm ∧ r.day = day)).length =
      if day ∈ days ∧ nm ∈ names then 1 else 0 := by
  induction days with
  | nil => simp
  | cons d ds ih =>
    rcases List.nodup_cons.mp hd with ⟨hdd, hds⟩
    rw [List.flatMap_cons, List.filter_append, List.length_append, ih hds]
    have hinner : ((names.map (f d)).filter
        (fun r => decide (r.name = nm ∧ r.day = day))).length =
        if d = day ∧ nm ∈ names then 1 else 0 := by
      rw [List.filter_map, List.length_map]
      by_cases hdy : d = day
      · subst hdy
        have hfun : (fun x => decide ((f d x).name = nm ∧ (f d x).day = d)) =
            (fun x : String => decide (x = nm)) := by
          funext x
          simp [hfd, hfn]
        rw [show ((fun r : AttendanceRecord => decide (r.name = nm ∧ r.day = d)) ∘ f d) =
            (fun x : String => decide (x = nm)) from hfun]
        rw [count_filter_nodup names nm hn]
        by_cases hnm : nm ∈ names <;> simp [hnm]
      · have hfun : (fun x => decide ((f d x).name = nm ∧ (f d x).day = day)) =
            (fun _ : String => false) := by
          funext x
          simp [hfd, hfn, hdy]
        rw [show ((fun r : AttendanceRecord => decide (r.name = nm ∧ r.day = day)) ∘ f d) =
            (fun _ : String => false) from hfun]
        simp [hdy]
    rw [hinner]
    by_cases hdy : d = day
    · subst hdy
      have hnotin : ¬(d ∈ ds ∧ nm ∈ names) := fun hc => hdd hc.1
      rw [if_neg hnotin]
      by_cases hnm : nm ∈ names <;> simp [hnm]
    · have : (d = day ∧ nm ∈ names) ↔ False := by simp [hdy]
      rw [if_neg (by simp [hdy])]
      by_cases hmem : day ∈ ds ∧ nm ∈ names
      · rw [if_pos hmem, if_pos ⟨List.mem_cons.mpr (Or.inr hmem.1), hmem.2⟩]
      · rw [if_neg hmem, if_neg ?_]
        intro hc
        rcases List.mem_cons.mp hc.1 with rfl | h
        · exact hdy rfl
        · exact hmem ⟨h, hc.2⟩

theorem engine_work_dates_nodup (kaoqin : List KaoqinEvent)
    (start_date end_date : ℤ) (work_days holiday_days : List ℤ) :
    (engine_work_dates kaoqin start_date end_date work_days holiday_days).Nodup := by
  unfold engine_work_dates
  apply List.Nodup.filter
  exact ((List.perm_insertionSort _ _).nodup_iff).mpr (pyDedup_nodup _)

/-- C1 amended: for every qualified employee and every date that both
appears among the in-range badge-event dates and is classified as a
workday, the run emits exactly one AttendanceRecord for that pair; for a
date carrying no badge event at all (or filtered out by the calendar)
it emits none, even when the date lies in the effective range and is a
workday. -/
theorem C1_reconciliation_records (kaoqin : List KaoqinEvent)
    (xiujia waichu chuchai : List AbsenceRow) (roster : List String)
    (linshika : List (String × ℤ)) (start_date end_date : ℤ)
    (work_days holiday_days : List ℤ) (nm : String) (day : ℤ) :
    (nm ∈ pyDedup roster →
      day ∈ engine_work_dates kaoqin start_date end_date work_days holiday_days →
      ((analyze_attendance kaoqin xiujia waichu chuchai roster linshika start_date
          end_date work_days holiday_days).filter
        (fun r => r.name = nm ∧ r.day = day)).length = 1) ∧
    (day ∉ engine_work_dates kaoqin start_date end_date work_days holiday_days →
      ((analyze_attendance kaoqin xiujia waichu chuchai roster linshika start_date
          end_date work_days holiday_days).filter
        (fun r => r.name = nm ∧ r.day = day)).length = 0) := by
  have hcount := flatMap_record_count
    (engine_work_dates kaoqin start_date end_date work_days holiday_days)
    (pyDedup roster)
    (fun d n => build_record (events_in_range kaoqin start_date end_date)
      xiujia waichu chuchai linshika d n)
    (fun _ _ => rfl) (fun _ _ => rfl)
    (engine_work_dates_nodup kaoqin start_date end_date work_days holiday_days)
    (pyDedup_nodup roster) day nm
  constructor
  · intro hn hd
    simp only [analyze_attendance]
    rw [hcount, if_pos ⟨hd, hn⟩]
  · intro hd
    simp only [analyze_attendance]
    rw [hcount, if_neg (fun hc => hd hc.1)]

/-- C1 as stated is false: with badge events for employee A only on days
4 and 6 (both Mondays through Fridays; day 5 is a Tuesday), day 5 lies
in the effective range [4, 6], the calendar classifies it as a workday,
and A is qualified, yet the run emits no record at all for (A, day 5),
because the engine iterates only over distinct badge-event dates. -/
theorem C1_counterexample :
    (4:ℤ) ≤ 5 ∧ (5:ℤ) ≤ 6 ∧
    is_workday_from_calendar 5 [] [] = true ∧
    "A" ∈ pyDedup ["A"] ∧
    ((analyze_attendance [⟨"A", 378000⟩, ⟨"A", 550800⟩] [] [] [] ["A"] [] 4 6 [] []).filter
      (fun r => r.name = "A" ∧ r.day = 5)).length = 0 := by
  refine ⟨by norm_num, by norm_num, by decide, by decide, ?_⟩
  have hwd : engine_work_dates [⟨"A", 378000⟩, ⟨"A", 550800⟩] 4 6 [] [] = [4, 6] := by
    norm_num [engine_work_dates, events_in_range, eday, pyDedup,
      is_workday_from_calendar, pyWeekday, List.insertionSort, List.orderedInsert]
  simp only [analyze_attendance, hwd]
  norm_num [pyDedup, build_record]

theorem C1_reconciliation_records_witness :
    "A" ∈ pyDedup ["A"] ∧
    (4:ℤ) ∈ engine_work_dates [⟨"A", 378000⟩, ⟨"A", 550800⟩] 4 6 [] [] ∧
    ((analyze_attendance [⟨"A", 378000⟩, ⟨"A", 550800⟩] [] [] [] ["A"] [] 4 6 [] []).filter
      (fun r => r.name = "A" ∧ r.day = 4)).length = 1 := by
  have hwd : engine_work_dates [⟨"A", 378000⟩, ⟨"A", 550800⟩] 4 6 [] [] = [4, 6] := by
    norm_num [engine_work_dates, events_in_range, eday, pyDedup,
      is_workday_from_calendar, pyWeekday, List.insertionSort, List.orderedInsert]
  have hn : "A" ∈ pyDedup ["A"] := by decide
  have hd : (4:ℤ) ∈ engine_work_dates [⟨"A", 378000⟩, ⟨"A", 550800⟩] 4 6 [] [] := by
    rw [hwd]; simp
  exact ⟨hn, hd,
    (C1_reconciliation_records [⟨"A", 378000⟩, ⟨"A", 550800⟩] [] [] [] ["A"] [] 4 6
      [] [] "A" 4).1 hn hd⟩

end Attendance
